import Mathlib

/-!
Verification of the `raw-reader` repository's Command Layer (`src/command.rs`),
utility macros (`src/math_util.rs`), disk enumeration arithmetic
(`src/disk_info.rs`), the aligned staging buffer (`src/data/aligned_buffer.rs`),
and the Compressed Address Codec described in the design document (§4.1).

Rust strings are modelled as `List Char`; fallible Rust functions returning
`Result<T, String>` are modelled as `Except CmdError T` where `CmdError` is an
inductive with one constructor per distinct error-construction site in the
source, carrying the interpolated payloads; `CmdError.render` reproduces the
exact `String` the source builds at that site.  A Rust panic (`todo!()`,
out-of-bounds indexing) is modelled explicitly, never conflated with `Err`.
Machine integers are `Int`/`Nat` with explicit range checks where the source
has them.
-/

namespace RawReader

/-- Convert a Lean string literal to the `List Char` representation used for
Rust strings throughout this development. -/
def chars (s : String) : List Char := s.data

/-- Model of Rust `char::is_whitespace`: membership in the Unicode
`White_Space` set (the 25 code points with that property). -/
def rust_char_is_whitespace (c : Char) : Bool :=
  decide (c.toNat ∈ [0x0009, 0x000A, 0x000B, 0x000C, 0x000D, 0x0020, 0x0085,
    0x00A0, 0x1680, 0x2000, 0x2001, 0x2002, 0x2003, 0x2004, 0x2005, 0x2006,
    0x2007, 0x2008, 0x2009, 0x200A, 0x2028, 0x2029, 0x202F, 0x205F, 0x3000])

/-- Model of Rust `str::to_lowercase` on one character, restricted to the
ASCII mappings (`A`–`Z` to `a`–`z`), which are the only mappings relevant to
the ASCII keywords the command parser compares against. -/
def rust_char_to_lowercase (c : Char) : Char :=
  if 'A' ≤ c ∧ c ≤ 'Z' then Char.ofNat (c.toNat + 32) else c

/-- Model of Rust `str::to_lowercase` (ASCII range). -/
def rust_to_lowercase (s : List Char) : List Char :=
  s.map rust_char_to_lowercase

/-- Model of Rust `str::trim_start` with `char::is_whitespace`. -/
def rust_trim_start (s : List Char) : List Char :=
  s.dropWhile rust_char_is_whitespace

/-- Model of Rust `str::trim`: whitespace removed from both ends. -/
def rust_trim (s : List Char) : List Char :=
  ((s.dropWhile rust_char_is_whitespace).reverse.dropWhile
    rust_char_is_whitespace).reverse

/-- Embedding of `split_at_first_token` (src/command.rs lines 184-206):
trim leading whitespace; `none` if nothing remains; otherwise split at the
first whitespace character (Rust `str::split_once(char::is_whitespace)`,
which drops the matched character), or return the whole token with an empty
remainder when no whitespace remains. -/
def split_at_first_token (raw_input : List Char) :
    Option (List Char × List Char) :=
  let input := rust_trim_start raw_input
  if input.isEmpty then
    none
  else if input.any rust_char_is_whitespace then
    some (input.takeWhile (fun c => !(rust_char_is_whitespace c)),
          (input.dropWhile (fun c => !(rust_char_is_whitespace c))).drop 1)
  else
    some (input, [])

/-- The variants of `std::num::IntErrorKind` distinguished by
`get_explanation_for` in the source. -/
inductive IntErrorKind where
  | Empty
  | InvalidDigit
  | PosOverflow
  | NegOverflow
  | Zero
deriving DecidableEq

/-- `i64::MAX`. -/
def i64_MAX : Int := 9223372036854775807

/-- `i64::MIN`. -/
def i64_MIN : Int := -9223372036854775808

/-- Model of Rust `char::to_digit(10).is_some()`: an ASCII digit `0`-`9`
(code points 48 through 57). -/
def is_ascii_digit (c : Char) : Bool :=
  decide (48 ≤ c.toNat ∧ c.toNat ≤ 57)

/-- Digit-accumulation loop of Rust `i64::from_str` (decimal): consume the
digits left to right, multiplying the accumulator by 10 and adding
(subtracting, for a negative parse) each digit with an `i64` range check, so
that overflow is reported at the first digit that exceeds the range. -/
def parse_digits_accumulate (positive : Bool) :
    List Char → Int → Except IntErrorKind Int
  | [], acc => .ok acc
  | c :: cs, acc =>
    if is_ascii_digit c then
      let d : Int := ((c.toNat - 48 : Nat) : Int)
      if positive then
        let acc2 := acc * 10 + d
        if i64_MAX < acc2 then .error .PosOverflow
        else parse_digits_accumulate positive cs acc2
      else
        let acc2 := acc * 10 - d
        if acc2 < i64_MIN then .error .NegOverflow
        else parse_digits_accumulate positive cs acc2
    else
      .error .InvalidDigit

/-- Embedding of Rust `str::parse::<i64>` (i.e. `i64::from_str`, radix 10):
empty input is `Empty`; an optional leading sign followed by no digits is
`InvalidDigit`; otherwise the digits are accumulated with `i64` range
checks. -/
def rust_parse_i64 (s : List Char) : Except IntErrorKind Int :=
  match s with
  | [] => .error .Empty
  | c :: rest =>
    let signAndDigits :=
      if c = '+' then (true, rest)
      else if c = '-' then (false, rest)
      else (true, c :: rest)
    if signAndDigits.2.isEmpty then .error .InvalidDigit
    else parse_digits_accumulate signAndDigits.1 signAndDigits.2 0

/-- One constructor per distinct error-construction site in src/command.rs,
carrying the values the source interpolates into the error string. -/
inductive CmdError where
  | unknownCommand (cmd : List Char)
  | missingSeekMode
  | missingSeekOffset
  | invalidSeekOffset (tok : List Char) (k : IntErrorKind)
  | unknownSeekMode (mode : List Char)
  | missingFindMode
  | unknownFindMode (mode : List Char)
  | missingPrintCount
  | invalidPrintCount (tok : List Char) (k : IntErrorKind)
  | negativePrintCount
  | configNoOptions
  | unexpectedExtraParameter (extra : List Char) (hlp : List Char)
deriving DecidableEq

/-- Embedding of `get_explanation_for` (src/command.rs lines 209-218).  The
`Empty` and `Zero` arms are `unreachable!()` panics in the source; they are
never applied by the parser (every parsed token is non-empty and the target
type is plain `i64`), and are mapped to a marker string here. -/
def get_explanation_for : IntErrorKind → String
  | .Empty => "<unreachable: empty token>"
  | .InvalidDigit => "is not a valid number"
  | .PosOverflow => "is too large and overflowed"
  | .NegOverflow => "is too small and overflowed"
  | .Zero => "cannot be 0"

/-- The exact `String` the source's `format!` builds at each
error-construction site. -/
def CmdError.render : CmdError → String
  | .unknownCommand cmd =>
      "Unknown command: '" ++ String.mk cmd ++
      "'. Enter 'help' for a list of commands."
  | .missingSeekMode =>
      "Missing seek mode: 'absolute' or 'relative'. Enter 'help seek' for an example."
  | .missingSeekOffset =>
      "Missing offset/position to seek to. Enter 'help seek' for an explanation"
  | .invalidSeekOffset tok k =>
      "invalid offset/position: '" ++ String.mk tok ++ "' " ++
      get_explanation_for k ++ "."
  | .unknownSeekMode mode =>
      "Unknown seek mode: '" ++ String.mk mode ++
      "'. Enter 'help seek' for a list of seek modes."
  | .missingFindMode =>
      "Missing find mode: 'nonzero', 'bytes', or 'string'. Enter 'help find' for an example."
  | .unknownFindMode mode =>
      "unknown find mode: '" ++ String.mk mode ++
      "'. Enter 'help find' for a list of find modes.'"
  | .missingPrintCount =>
      "Missing number of bytes to print. Enter 'help print' for an example."
  | .invalidPrintCount tok k =>
      "Invalid number of bytes: '" ++ String.mk tok ++ "' " ++
      get_explanation_for k ++ "."
  | .negativePrintCount =>
      "The number of bytes to print must be non-negative."
  | .configNoOptions => "no options"
  | .unexpectedExtraParameter extra hlp =>
      "Unexpected extra parameter: '" ++ String.mk extra ++ "'. Enter '" ++
      String.mk hlp ++ "' for an explanation."

/-- Embedding of `reject_additional_tokens` (src/command.rs lines 221-228). -/
def reject_additional_tokens (remainder : List Char) (hlp : List Char) :
    Except CmdError Unit :=
  let extra := rust_trim remainder
  if !extra.isEmpty then .error (.unexpectedExtraParameter extra hlp)
  else .ok ()

/-- Modelled from the spec: `BytePattern` lives in `src/pattern.rs`, which is
absent from the sources; the spec (§6) declares `Find::Byte` out of core
scope.  The pattern is modelled as the raw remainder text; no claim depends
on its parsing behaviour. -/
structure BytePattern where
  raw : List Char
deriving DecidableEq

/-- Modelled from the spec: `StringPattern` lives in `src/pattern.rs`, which
is absent from the sources; the spec (§6) declares `Find::String` out of core
scope. -/
structure StringPattern where
  raw : List Char
deriving DecidableEq

/-- Modelled from the spec: the parsing of a `BytePattern` is not part of the
sources; modelled as accepting the raw remainder. -/
def BytePattern.from_str (s : List Char) : Except CmdError BytePattern :=
  .ok ⟨s⟩

/-- Modelled from the spec: the parsing of a `StringPattern` is not part of
the sources; modelled as accepting the raw remainder. -/
def StringPattern.from_str (s : List Char) : Except CmdError StringPattern :=
  .ok ⟨s⟩

/-- The `Seek` enum (src/command.rs lines 47-50). -/
inductive Seek where
  | Absolute (offset : Int)
  | Relative (offset : Int)
deriving DecidableEq

/-- Embedding of `Seek::from_str` (src/command.rs lines 52-82): take the mode
token, then the offset token, parse the offset as `i64`, reject extra tokens,
and only then match the lowercased mode. -/
def Seek.from_str (s : List Char) : Except CmdError Seek :=
  match split_at_first_token s with
  | none => .error .missingSeekMode
  | some (mode, arguments) =>
    match split_at_first_token arguments with
    | none => .error .missingSeekOffset
    | some (raw_integer, extra) =>
      match rust_parse_i64 raw_integer with
      | .error e => .error (.invalidSeekOffset raw_integer e)
      | .ok integer =>
        match reject_additional_tokens extra (chars "help seek") with
        | .error e => .error e
        | .ok () =>
          if rust_to_lowercase mode = chars "absolute" then
            .ok (Seek.Absolute integer)
          else if rust_to_lowercase mode = chars "relative" then
            .ok (Seek.Relative integer)
          else
            .error (.unknownSeekMode (rust_to_lowercase mode))

/-- The `Find` enum (src/command.rs lines 86-90). -/
inductive Find where
  | NonZero
  | Byte (pattern : BytePattern)
  | String (pattern : StringPattern)
deriving DecidableEq

/-- Embedding of `Find::from_str` (src/command.rs lines 92-113). -/
def Find.from_str (s : List Char) : Except CmdError Find :=
  match split_at_first_token s with
  | none => .error .missingFindMode
  | some (mode, remainder) =>
    if rust_to_lowercase mode = chars "nonzero" then
      match reject_additional_tokens remainder (chars "help find nonzero") with
      | .error e => .error e
      | .ok () => .ok Find.NonZero
    else if rust_to_lowercase mode = chars "bytes" then
      (BytePattern.from_str remainder).map Find.Byte
    else if rust_to_lowercase mode = chars "string" then
      (StringPattern.from_str remainder).map Find.String
    else
      .error (.unknownFindMode (rust_to_lowercase mode))

/-- The `Print` struct (src/command.rs line 117): a `u64` byte count. -/
structure Print where
  count : Nat
deriving DecidableEq

/-- Embedding of `Print::from_str` (src/command.rs lines 119-141): take the
count token, parse it as `i64`, convert to `u64` (which fails exactly on
negatives), then reject extra tokens. -/
def Print.from_str (s : List Char) : Except CmdError Print :=
  match split_at_first_token s with
  | none => .error .missingPrintCount
  | some (raw_integer, extra) =>
    match rust_parse_i64 raw_integer with
    | .error e => .error (.invalidPrintCount raw_integer e)
    | .ok integer =>
      if integer < 0 then .error .negativePrintCount
      else
        match reject_additional_tokens extra (chars "help print") with
        | .error e => .error e
        | .ok () => .ok (Print.mk integer.toNat)

/-- The `Config` enum (src/command.rs line 146): it has no variants. -/
inductive Config
deriving DecidableEq

/-- Embedding of `Config::from_str` (src/command.rs lines 148-156). -/
def Config.from_str (_s : List Char) : Except CmdError Config :=
  .error .configNoOptions

/-- The `Help` enum (src/command.rs lines 160-171). -/
inductive Help where
  | None
  | Seek
  | SeekAbsolute
  | SeekRelative
  | Find
  | FindNonZero
  | FindByte
  | FindString
  | Print
  | Config
deriving DecidableEq

/-- Embedding of `Help::from_str` (src/command.rs lines 173-181): its body is
`todo!()`, which panics unconditionally; the panic is modelled as `none`. -/
def Help.from_str (_s : List Char) : Option (Except CmdError Help) :=
  none

/-- The `Command` enum (src/command.rs lines 9-17). -/
inductive Command where
  | Seek (s : Seek)
  | Find (f : Find)
  | Print (p : Print)
  | Config (c : Config)
  | Help (h : Help)
  | Exit
  | None
deriving DecidableEq

/-- Outcome of running `Command::from_str`: the `Ok` command, the `Err`
string (structured), or a panic of the process. -/
inductive ParseOutcome where
  | ok (cmd : Command)
  | err (e : CmdError)
  | panicked
deriving DecidableEq

/-- Lift a non-panicking sub-parser result into a `ParseOutcome`. -/
def ParseOutcome.ofExcept : Except CmdError Command → ParseOutcome
  | .ok c => .ok c
  | .error e => .err e

/-- Embedding of `Command::from_str` (src/command.rs lines 23-42): dispatch
on the lowercased first token; whitespace-only input is `Ok(Command::None)`;
the `help` branch calls `Help::from_str`, whose `todo!()` body panics. -/
def Command.from_str (s : List Char) : ParseOutcome :=
  match split_at_first_token s with
  | none => ParseOutcome.ok Command.None
  | some (command, remainder) =>
    let lc := rust_to_lowercase command
    if lc = chars "seek" then
      ParseOutcome.ofExcept ((Seek.from_str remainder).map Command.Seek)
    else if lc = chars "find" then
      ParseOutcome.ofExcept ((Find.from_str remainder).map Command.Find)
    else if lc = chars "print" then
      ParseOutcome.ofExcept ((Print.from_str remainder).map Command.Print)
    else if lc = chars "config" then
      ParseOutcome.ofExcept ((Config.from_str remainder).map Command.Config)
    else if lc = chars "help" then
      match Help.from_str remainder with
      | none => ParseOutcome.panicked
      | some r => ParseOutcome.ofExcept (r.map Command.Help)
    else if lc = chars "exit" then
      match reject_additional_tokens remainder (chars "help") with
      | .error e => ParseOutcome.err e
      | .ok () => ParseOutcome.ok Command.Exit
    else
      ParseOutcome.err (.unknownCommand lc)

/-- The ASCII decimal digit character for a digit value below 10. -/
def digit_char (d : Nat) : Char := Char.ofNat (48 + d)

/-- The canonical decimal digit string of a natural number, most significant
digit first, no leading zeros (except for `0` itself); this is exactly the
output of Rust's `Display` for unsigned integers. -/
def nat_to_digit_chars (n : Nat) : List Char :=
  if _h : n < 10 then [digit_char n]
  else nat_to_digit_chars (n / 10) ++ [digit_char (n % 10)]
termination_by n
decreasing_by exact Nat.div_lt_self (by omega) (by omega)

/-- The canonical decimal rendering of an `i64` value, as produced by Rust's
`Display` for `i64`: a leading `-` for negatives, then the digits of the
absolute value. -/
def int_to_chars (n : Int) : List Char :=
  if n < 0 then '-' :: nat_to_digit_chars n.natAbs
  else nat_to_digit_chars n.natAbs

lemma ws_false_of_digit (c : Char) (h : is_ascii_digit c = true) :
    rust_char_is_whitespace c = false := by
  simp only [is_ascii_digit, decide_eq_true_eq] at h
  simp only [rust_char_is_whitespace, decide_eq_false_iff_not]
  intro hmem
  simp only [List.mem_cons, List.not_mem_nil, or_false] at hmem
  omega

lemma ne_sign_of_digit (c : Char) (h : is_ascii_digit c = true) :
    c ≠ '+' ∧ c ≠ '-' := by
  simp only [is_ascii_digit, decide_eq_true_eq] at h
  constructor <;> intro hc <;> subst hc <;> revert h <;> decide

lemma digit_char_facts (d : Nat) (h : d < 10) :
    (digit_char d).toNat = 48 + d ∧ is_ascii_digit (digit_char d) = true := by
  interval_cases d <;> exact ⟨by decide, by decide⟩

lemma nat_to_digit_chars_ne_nil (m : Nat) : nat_to_digit_chars m ≠ [] := by
  rw [nat_to_digit_chars]
  split <;> simp

lemma nat_to_digit_chars_all_digits (m : Nat) :
    ∀ c ∈ nat_to_digit_chars m, is_ascii_digit c = true := by
  induction m using Nat.strong_induction_on with
  | _ m ih =>
    rw [nat_to_digit_chars]
    split
    · intro c hc
      rw [List.mem_singleton] at hc
      subst hc
      exact (digit_char_facts m (by omega)).2
    · intro c hc
      rcases List.mem_append.1 hc with h1 | h1
      · exact ih (m / 10) (Nat.div_lt_self (by omega) (by omega)) c h1
      · rw [List.mem_singleton] at h1
        subst h1
        exact (digit_char_facts (m % 10) (Nat.mod_lt _ (by omega))).2

/-- The value accumulated by the positive branch of the parse loop, starting
from accumulator `acc`, over the given digit characters. -/
def val_from (acc : Int) (ds : List Char) : Int :=
  ds.foldl (fun a c => a * 10 + ((c.toNat - 48 : Nat) : Int)) acc

/-- The value accumulated by the negative branch of the parse loop. -/
def val_from_neg (acc : Int) (ds : List Char) : Int :=
  ds.foldl (fun a c => a * 10 - ((c.toNat - 48 : Nat) : Int)) acc

lemma le_val_from (ds : List Char) : ∀ acc : Int, 0 ≤ acc →
    acc ≤ val_from acc ds := by
  induction ds with
  | nil => intro acc _; simp [val_from]
  | cons c cs ih =>
    intro acc hacc
    have hd : (0 : Int) ≤ ((c.toNat - 48 : Nat) : Int) := Int.ofNat_nonneg _
    have h1 : acc ≤ acc * 10 + ((c.toNat - 48 : Nat) : Int) := by linarith
    have h2 := ih (acc * 10 + ((c.toNat - 48 : Nat) : Int)) (by linarith)
    calc acc ≤ acc * 10 + ((c.toNat - 48 : Nat) : Int) := h1
      _ ≤ val_from (acc * 10 + ((c.toNat - 48 : Nat) : Int)) cs := h2
      _ = val_from acc (c :: cs) := rfl

lemma val_from_neg_le (ds : List Char) : ∀ acc : Int, acc ≤ 0 →
    val_from_neg acc ds ≤ acc := by
  induction ds with
  | nil => intro acc _; simp [val_from_neg]
  | cons c cs ih =>
    intro acc hacc
    have hd : (0 : Int) ≤ ((c.toNat - 48 : Nat) : Int) := Int.ofNat_nonneg _
    have h1 : acc * 10 - ((c.toNat - 48 : Nat) : Int) ≤ acc := by linarith
    have h2 := ih (acc * 10 - ((c.toNat - 48 : Nat) : Int)) (by linarith)
    calc val_from_neg acc (c :: cs)
        = val_from_neg (acc * 10 - ((c.toNat - 48 : Nat) : Int)) cs := rfl
      _ ≤ acc * 10 - ((c.toNat - 48 : Nat) : Int) := h2
      _ ≤ acc := h1

lemma val_from_digits (m : Nat) : ∀ acc : Int,
    val_from acc (nat_to_digit_chars m) =
      acc * 10 ^ (nat_to_digit_chars m).length + m := by
  induction m using Nat.strong_induction_on with
  | _ m ih =>
    intro acc
    rw [nat_to_digit_chars]
    split
    · rename_i h
      have hd := (digit_char_facts m h).1
      simp [val_from, hd]
    · rename_i h
      have hd := (digit_char_facts (m % 10) (Nat.mod_lt _ (by omega))).1
      have ihm := ih (m / 10) (Nat.div_lt_self (by omega) (by omega))
      rw [show val_from acc (nat_to_digit_chars (m / 10) ++
            [digit_char (m % 10)]) =
          val_from (val_from acc (nat_to_digit_chars (m / 10)))
            [digit_char (m % 10)] from List.foldl_append .. , ihm]
      simp only [val_from, List.foldl_cons, List.foldl_nil, List.length_append,
        List.length_singleton, hd]
      rw [pow_succ]
      have hmod : ((48 + m % 10 - 48 : Nat) : Int) = ((m % 10 : Nat) : Int) := by
        omega
      rw [hmod]
      have hdm : ((m / 10 : Nat) : Int) * 10 + ((m % 10 : Nat) : Int) =
          (m : Int) := by omega
      ring_nf
      ring_nf at hdm ⊢
      nlinarith [hdm]

lemma val_from_neg_digits (m : Nat) : ∀ acc : Int,
    val_from_neg acc (nat_to_digit_chars m) =
      acc * 10 ^ (nat_to_digit_chars m).length - m := by
  induction m using Nat.strong_induction_on with
  | _ m ih =>
    intro acc
    rw [nat_to_digit_chars]
    split
    · rename_i h
      have hd := (digit_char_facts m h).1
      simp [val_from_neg, hd]
    · rename_i h
      have hd := (digit_char_facts (m % 10) (Nat.mod_lt _ (by omega))).1
      have ihm := ih (m / 10) (Nat.div_lt_self (by omega) (by omega))
      rw [show val_from_neg acc (nat_to_digit_chars (m / 10) ++
            [digit_char (m % 10)]) =
          val_from_neg (val_from_neg acc (nat_to_digit_chars (m / 10)))
            [digit_char (m % 10)] from List.foldl_append .. , ihm]
      simp only [val_from_neg, List.foldl_cons, List.foldl_nil,
        List.length_append, List.length_singleton, hd]
      rw [pow_succ]
      have hmod : ((48 + m % 10 - 48 : Nat) : Int) = ((m % 10 : Nat) : Int) := by
        omega
      rw [hmod]
      have hdm : ((m / 10 : Nat) : Int) * 10 + ((m % 10 : Nat) : Int) =
          (m : Int) := by omega
      ring_nf
      ring_nf at hdm ⊢
      nlinarith [hdm]

lemma parse_digits_accumulate_ok (ds : List Char) : ∀ acc : Int,
    (∀ c ∈ ds, is_ascii_digit c = true) → 0 ≤ acc →
    val_from acc ds ≤ i64_MAX →
    parse_digits_accumulate true ds acc = .ok (val_from acc ds) := by
  induction ds with
  | nil => intro acc _ _ _; simp [parse_digits_accumulate, val_from]
  | cons c cs ih =>
    intro acc hdig hacc hle
    have hc : is_ascii_digit c = true := hdig c (by simp)
    have hval : val_from acc (c :: cs) =
        val_from (acc * 10 + ((c.toNat - 48 : Nat) : Int)) cs := rfl
    have hd : (0 : Int) ≤ ((c.toNat - 48 : Nat) : Int) := Int.ofNat_nonneg _
    have hacc2 : (0 : Int) ≤ acc * 10 + ((c.toNat - 48 : Nat) : Int) := by
      linarith
    have hbound : acc * 10 + ((c.toNat - 48 : Nat) : Int) ≤ i64_MAX := by
      calc acc * 10 + ((c.toNat - 48 : Nat) : Int)
          ≤ val_from (acc * 10 + ((c.toNat - 48 : Nat) : Int)) cs :=
            le_val_from cs _ hacc2
        _ ≤ i64_MAX := by rw [← hval]; exact hle
    simp only [parse_digits_accumulate, hc, if_true, if_pos]
    rw [if_neg (by omega)]
    rw [hval]
    exact ih _ (fun x hx => hdig x (by simp [hx])) hacc2 (hval ▸ hle)

lemma parse_digits_accumulate_overflow (ds : List Char) : ∀ acc : Int,
    (∀ c ∈ ds, is_ascii_digit c = true) → 0 ≤ acc → acc ≤ i64_MAX →
    i64_MAX < val_from acc ds →
    parse_digits_accumulate true ds acc = .error .PosOverflow := by
  induction ds with
  | nil =>
    intro acc _ _ hle hlt
    exfalso
    simp only [val_from, List.foldl_nil] at hlt
    omega
  | cons c cs ih =>
    intro acc hdig hacc hle hlt
    have hc : is_ascii_digit c = true := hdig c (by simp)
    have hval : val_from acc (c :: cs) =
        val_from (acc * 10 + ((c.toNat - 48 : Nat) : Int)) cs := rfl
    have hd : (0 : Int) ≤ ((c.toNat - 48 : Nat) : Int) := Int.ofNat_nonneg _
    have hacc2 : (0 : Int) ≤ acc * 10 + ((c.toNat - 48 : Nat) : Int) := by
      linarith
    by_cases hov : i64_MAX < acc * 10 + ((c.toNat - 48 : Nat) : Int)
    · simp only [parse_digits_accumulate, hc, if_true]
      rw [if_pos hov]
    · simp only [parse_digits_accumulate, hc, if_true]
      rw [if_neg hov]
      exact ih _ (fun x hx => hdig x (by simp [hx])) hacc2 (by omega)
        (hval ▸ hlt)

lemma parse_digits_accumulate_neg_ok (ds : List Char) : ∀ acc : Int,
    (∀ c ∈ ds, is_ascii_digit c = true) → acc ≤ 0 →
    i64_MIN ≤ val_from_neg acc ds →
    parse_digits_accumulate false ds acc = .ok (val_from_neg acc ds) := by
  induction ds with
  | nil => intro acc _ _ _; simp [parse_digits_accumulate, val_from_neg]
  | cons c cs ih =>
    intro acc hdig hacc hge
    have hc : is_ascii_digit c = true := hdig c (by simp)
    have hval : val_from_neg acc (c :: cs) =
        val_from_neg (acc * 10 - ((c.toNat - 48 : Nat) : Int)) cs := rfl
    have hd : (0 : Int) ≤ ((c.toNat - 48 : Nat) : Int) := Int.ofNat_nonneg _
    have hacc2 : acc * 10 - ((c.toNat - 48 : Nat) : Int) ≤ 0 := by linarith
    have hbound : i64_MIN ≤ acc * 10 - ((c.toNat - 48 : Nat) : Int) := by
      calc i64_MIN ≤ val_from_neg (acc * 10 - ((c.toNat - 48 : Nat) : Int)) cs := by
            rw [← hval]; exact hge
        _ ≤ acc * 10 - ((c.toNat - 48 : Nat) : Int) := val_from_neg_le cs _ hacc2
    simp only [parse_digits_accumulate, hc, if_true, Bool.false_eq_true,
      if_false]
    rw [if_neg (by omega)]
    rw [hval]
    exact ih _ (fun x hx => hdig x (by simp [hx])) hacc2 (hval ▸ hge)

lemma rust_parse_i64_nat (m : Nat) (h : (m : Int) ≤ i64_MAX) :
    rust_parse_i64 (nat_to_digit_chars m) = .ok m := by
  obtain ⟨c, cs, heq⟩ := List.exists_cons_of_ne_nil (nat_to_digit_chars_ne_nil m)
  have hdigs := nat_to_digit_chars_all_digits m
  have hc : is_ascii_digit c = true := hdigs c (by rw [heq]; simp)
  obtain ⟨hplus, hminus⟩ := ne_sign_of_digit c hc
  have hval := val_from_digits m 0
  rw [heq]
  simp only [rust_parse_i64, if_neg hplus, if_neg hminus, List.isEmpty_cons,
    Bool.false_eq_true, if_false]
  rw [← heq]
  rw [parse_digits_accumulate_ok (nat_to_digit_chars m) 0 hdigs le_rfl
    (by rw [hval]; simpa using h)]
  rw [hval]
  simp

lemma rust_parse_i64_nat_overflow (m : Nat) (h : i64_MAX < (m : Int)) :
    rust_parse_i64 (nat_to_digit_chars m) = .error .PosOverflow := by
  obtain ⟨c, cs, heq⟩ := List.exists_cons_of_ne_nil (nat_to_digit_chars_ne_nil m)
  have hdigs := nat_to_digit_chars_all_digits m
  have hc : is_ascii_digit c = true := hdigs c (by rw [heq]; simp)
  obtain ⟨hplus, hminus⟩ := ne_sign_of_digit c hc
  have hval := val_from_digits m 0
  rw [heq]
  simp only [rust_parse_i64, if_neg hplus, if_neg hminus, List.isEmpty_cons,
    Bool.false_eq_true, if_false]
  rw [← heq]
  exact parse_digits_accumulate_overflow (nat_to_digit_chars m) 0 hdigs le_rfl
    (by simp [i64_MAX]) (by rw [hval]; simpa using h)

lemma rust_parse_i64_neg_cons (ds : List Char) (hds : ds ≠ []) :
    rust_parse_i64 ('-' :: ds) = parse_digits_accumulate false ds 0 := by
  have hp : ¬(('-' : Char) = '+') := by decide
  simp only [rust_parse_i64, if_neg hp, if_pos (rfl : ('-' : Char) = '-'),
    if_true]
  rw [if_neg (by simpa [List.isEmpty_eq_true] using hds)]

lemma rust_parse_i64_int (n : Int) (h1 : i64_MIN ≤ n) (h2 : n ≤ i64_MAX) :
    rust_parse_i64 (int_to_chars n) = .ok n := by
  by_cases hn : n < 0
  · have habs : ((n.natAbs : Nat) : Int) = -n := by omega
    have hdigs := nat_to_digit_chars_all_digits n.natAbs
    have hval := val_from_neg_digits n.natAbs 0
    have hnil := nat_to_digit_chars_ne_nil n.natAbs
    rw [int_to_chars, if_pos hn, rust_parse_i64_neg_cons _ hnil]
    rw [parse_digits_accumulate_neg_ok (nat_to_digit_chars n.natAbs) 0 hdigs
      le_rfl (by rw [hval]; simp [habs]; omega)]
    rw [hval]
    simp [habs]
  · have habs : ((n.natAbs : Nat) : Int) = n := by omega
    rw [int_to_chars, if_neg hn]
    rw [rust_parse_i64_nat n.natAbs (by omega)]
    rw [habs]

lemma split_at_first_token_none (s : List Char)
    (h : ∀ c ∈ s, rust_char_is_whitespace c = true) :
    split_at_first_token s = none := by
  have htrim : rust_trim_start s = [] := by
    rw [rust_trim_start, List.dropWhile_eq_nil_iff]
    exact h
  simp [split_at_first_token, htrim]

lemma takeWhile_not_ws_append (w : Char) (t rest : List Char)
    (hw : rust_char_is_whitespace w = true)
    (h : ∀ c ∈ t, rust_char_is_whitespace c = false) :
    (t ++ w :: rest).takeWhile (fun c => !(rust_char_is_whitespace c)) = t := by
  induction t with
  | nil => simp [List.takeWhile_cons, hw]
  | cons c cs ih =>
    have hc : rust_char_is_whitespace c = false := h c (by simp)
    simp only [List.cons_append, List.takeWhile_cons, hc, Bool.not_false,
      if_true]
    rw [ih (fun x hx => h x (by simp [hx]))]

lemma dropWhile_not_ws_append (w : Char) (t rest : List Char)
    (hw : rust_char_is_whitespace w = true)
    (h : ∀ c ∈ t, rust_char_is_whitespace c = false) :
    (t ++ w :: rest).dropWhile (fun c => !(rust_char_is_whitespace c)) =
      w :: rest := by
  induction t with
  | nil => simp [List.dropWhile_cons, hw]
  | cons c cs ih =>
    have hc : rust_char_is_whitespace c = false := h c (by simp)
    simp only [List.cons_append, List.dropWhile_cons, hc, Bool.not_false,
      if_true]
    exact ih (fun x hx => h x (by simp [hx]))

lemma split_at_first_token_space (w : Char) (t rest : List Char)
    (hw : rust_char_is_whitespace w = true) (h1 : t ≠ [])
    (h2 : ∀ c ∈ t, rust_char_is_whitespace c = false) :
    split_at_first_token (t ++ w :: rest) = some (t, rest) := by
  obtain ⟨c, cs, rfl⟩ := List.exists_cons_of_ne_nil h1
  have hc : rust_char_is_whitespace c = false := h2 c (by simp)
  rw [List.cons_append]
  have htrim : rust_trim_start (c :: (cs ++ w :: rest)) =
      c :: (cs ++ w :: rest) := by
    simp [rust_trim_start, List.dropWhile_cons, hc]
  have hany : (c :: (cs ++ w :: rest)).any rust_char_is_whitespace = true := by
    rw [List.any_eq_true]
    exact ⟨w, by simp, hw⟩
  rw [split_at_first_token, htrim]
  simp only [List.isEmpty_cons, Bool.false_eq_true, if_false, hany, if_true]
  have ht := takeWhile_not_ws_append w (c :: cs) rest hw h2
  have hd := dropWhile_not_ws_append w (c :: cs) rest hw h2
  rw [List.cons_append] at ht hd
  rw [ht, hd]
  simp

lemma split_at_first_token_single (t : List Char) (h1 : t ≠ [])
    (h2 : ∀ c ∈ t, rust_char_is_whitespace c = false) :
    split_at_first_token t = some (t, []) := by
  obtain ⟨c, cs, rfl⟩ := List.exists_cons_of_ne_nil h1
  have hc : rust_char_is_whitespace c = false := h2 c (by simp)
  have htrim : rust_trim_start (c :: cs) = c :: cs := by
    simp [rust_trim_start, List.dropWhile_cons, hc]
  have hany : (c :: cs).any rust_char_is_whitespace = false := by
    rw [List.any_eq_false]
    intro x hx
    simp [h2 x hx]
  rw [split_at_first_token]
  simp [htrim, hany]

lemma rust_trim_nil : rust_trim [] = [] := by decide

lemma reject_additional_tokens_nil (hlp : List Char) :
    reject_additional_tokens [] hlp = .ok () := by
  simp [reject_additional_tokens, rust_trim_nil]

lemma reject_additional_tokens_of_trim_nil (rem hlp : List Char)
    (h : rust_trim rem = []) :
    reject_additional_tokens rem hlp = .ok () := by
  simp [reject_additional_tokens, h]

lemma reject_additional_tokens_of_trim_ne_nil (rem hlp : List Char)
    (h : rust_trim rem ≠ []) :
    reject_additional_tokens rem hlp =
      .error (.unexpectedExtraParameter (rust_trim rem) hlp) := by
  rw [reject_additional_tokens]
  rw [if_pos (by simpa [List.isEmpty_eq_true] using h)]

lemma seek_from_str_mode_offset (mode tok : List Char) (hm1 : mode ≠ [])
    (hm2 : ∀ c ∈ mode, rust_char_is_whitespace c = false) (ht1 : tok ≠ [])
    (ht2 : ∀ c ∈ tok, rust_char_is_whitespace c = false) (n : Int)
    (hp : rust_parse_i64 tok = .ok n) :
    Seek.from_str (mode ++ ' ' :: tok) =
      (if rust_to_lowercase mode = chars "absolute" then .ok (Seek.Absolute n)
       else if rust_to_lowercase mode = chars "relative" then
         .ok (Seek.Relative n)
       else .error (.unknownSeekMode (rust_to_lowercase mode))) := by
  simp only [Seek.from_str, split_at_first_token_space ' ' mode tok (by decide) hm1 hm2,
    split_at_first_token_single tok ht1 ht2, hp,
    reject_additional_tokens_nil]

lemma seek_from_str_invalid_offset (mode tok : List Char) (hm1 : mode ≠ [])
    (hm2 : ∀ c ∈ mode, rust_char_is_whitespace c = false) (ht1 : tok ≠ [])
    (ht2 : ∀ c ∈ tok, rust_char_is_whitespace c = false) (k : IntErrorKind)
    (hp : rust_parse_i64 tok = .error k) :
    Seek.from_str (mode ++ ' ' :: tok) = .error (.invalidSeekOffset tok k) := by
  simp only [Seek.from_str, split_at_first_token_space ' ' mode tok (by decide) hm1 hm2,
    split_at_first_token_single tok ht1 ht2, hp]

lemma seek_from_str_missing_mode (s : List Char)
    (h : ∀ c ∈ s, rust_char_is_whitespace c = true) :
    Seek.from_str s = .error .missingSeekMode := by
  simp only [Seek.from_str, split_at_first_token_none s h]

lemma seek_from_str_missing_offset (mode : List Char) (hm1 : mode ≠ [])
    (hm2 : ∀ c ∈ mode, rust_char_is_whitespace c = false) :
    Seek.from_str mode = .error .missingSeekOffset := by
  simp only [Seek.from_str, split_at_first_token_single mode hm1 hm2,
    split_at_first_token_none [] (by simp)]

lemma seek_from_str_extra_tokens (mode tok rest : List Char) (hm1 : mode ≠ [])
    (hm2 : ∀ c ∈ mode, rust_char_is_whitespace c = false) (ht1 : tok ≠ [])
    (ht2 : ∀ c ∈ tok, rust_char_is_whitespace c = false) (n : Int)
    (hp : rust_parse_i64 tok = .ok n) (hrest : rust_trim rest ≠ []) :
    Seek.from_str (mode ++ ' ' :: (tok ++ ' ' :: rest)) =
      .error (.unexpectedExtraParameter (rust_trim rest) (chars "help seek")) := by
  simp only [Seek.from_str, split_at_first_token_space ' ' mode _ (by decide) hm1 hm2,
    split_at_first_token_space ' ' tok rest (by decide) ht1 ht2, hp,
    reject_additional_tokens_of_trim_ne_nil rest (chars "help seek") hrest]

lemma seek_from_str_ok_inv (s : List Char) (x : Seek)
    (h : Seek.from_str s = .ok x) :
    ∃ mode args, split_at_first_token s = some (mode, args) ∧
      (rust_to_lowercase mode = chars "absolute" ∨
       rust_to_lowercase mode = chars "relative") := by
  rcases hsplit : split_at_first_token s with _ | ⟨mode, args⟩ <;>
    simp only [Seek.from_str, hsplit] at h
  · exact Except.noConfusion h
  · refine ⟨mode, args, rfl, ?_⟩
    rcases hsplit2 : split_at_first_token args with _ | ⟨tok, extra⟩ <;>
      simp only [hsplit2] at h
    · exact Except.noConfusion h
    · rcases hparse : rust_parse_i64 tok with k | n <;>
        simp only [hparse] at h
      · exact Except.noConfusion h
      · rcases hrej : reject_additional_tokens extra (chars "help seek") with
          e | ⟨⟩ <;> simp only [hrej] at h
        · exact Except.noConfusion h
        · by_cases habs : rust_to_lowercase mode = chars "absolute"
          · exact Or.inl habs
          · by_cases hrel : rust_to_lowercase mode = chars "relative"
            · exact Or.inr hrel
            · rw [if_neg habs, if_neg hrel] at h
              exact Except.noConfusion h

lemma print_from_str_ok (tok : List Char) (ht1 : tok ≠ [])
    (ht2 : ∀ c ∈ tok, rust_char_is_whitespace c = false) (n : Int)
    (hp : rust_parse_i64 tok = .ok n) (hn : ¬ n < 0) :
    Print.from_str tok = .ok (Print.mk n.toNat) := by
  simp only [Print.from_str, split_at_first_token_single tok ht1 ht2, hp,
    if_neg hn, reject_additional_tokens_nil]

lemma print_from_str_negative (tok : List Char) (ht1 : tok ≠ [])
    (ht2 : ∀ c ∈ tok, rust_char_is_whitespace c = false) (n : Int)
    (hp : rust_parse_i64 tok = .ok n) (hn : n < 0) :
    Print.from_str tok = .error .negativePrintCount := by
  simp only [Print.from_str, split_at_first_token_single tok ht1 ht2, hp,
    if_pos hn]

lemma print_from_str_invalid (tok : List Char) (ht1 : tok ≠ [])
    (ht2 : ∀ c ∈ tok, rust_char_is_whitespace c = false) (k : IntErrorKind)
    (hp : rust_parse_i64 tok = .error k) :
    Print.from_str tok = .error (.invalidPrintCount tok k) := by
  simp only [Print.from_str, split_at_first_token_single tok ht1 ht2, hp]

lemma find_from_str_nonzero (t : List Char) (h1 : t ≠ [])
    (h2 : ∀ c ∈ t, rust_char_is_whitespace c = false)
    (hlow : rust_to_lowercase t = chars "nonzero") :
    Find.from_str t = .ok Find.NonZero := by
  simp only [Find.from_str, split_at_first_token_single t h1 h2, hlow,
    if_true, reject_additional_tokens_nil]

lemma find_from_str_missing_mode (s : List Char)
    (h : ∀ c ∈ s, rust_char_is_whitespace c = true) :
    Find.from_str s = .error .missingFindMode := by
  simp only [Find.from_str, split_at_first_token_none s h]

lemma command_from_str_whitespace (s : List Char)
    (hs : split_at_first_token s = none) :
    Command.from_str s = ParseOutcome.ok Command.None := by
  simp only [Command.from_str, hs]

lemma command_from_str_dispatch_seek (s tok rem : List Char)
    (hs : split_at_first_token s = some (tok, rem))
    (hlow : rust_to_lowercase tok = chars "seek") :
    Command.from_str s =
      ParseOutcome.ofExcept ((Seek.from_str rem).map Command.Seek) := by
  simp only [Command.from_str, hs, hlow]
  rw [if_true]

lemma command_from_str_dispatch_find (s tok rem : List Char)
    (hs : split_at_first_token s = some (tok, rem))
    (hlow : rust_to_lowercase tok = chars "find") :
    Command.from_str s =
      ParseOutcome.ofExcept ((Find.from_str rem).map Command.Find) := by
  simp only [Command.from_str, hs, hlow]
  rw [if_neg (by decide), if_true]

lemma command_from_str_dispatch_print (s tok rem : List Char)
    (hs : split_at_first_token s = some (tok, rem))
    (hlow : rust_to_lowercase tok = chars "print") :
    Command.from_str s =
      ParseOutcome.ofExcept ((Print.from_str rem).map Command.Print) := by
  simp only [Command.from_str, hs, hlow]
  rw [if_neg (by decide), if_neg (by decide), if_true]

lemma command_from_str_dispatch_help (s tok rem : List Char)
    (hs : split_at_first_token s = some (tok, rem))
    (hlow : rust_to_lowercase tok = chars "help") :
    Command.from_str s = ParseOutcome.panicked := by
  simp only [Command.from_str, hs, hlow]
  rw [if_neg (by decide), if_neg (by decide), if_neg (by decide),
    if_neg (by decide), if_true]
  rfl

lemma command_from_str_dispatch_exit (s tok rem : List Char)
    (hs : split_at_first_token s = some (tok, rem))
    (hlow : rust_to_lowercase tok = chars "exit") :
    Command.from_str s =
      (match reject_additional_tokens rem (chars "help") with
       | .error e => ParseOutcome.err e
       | .ok () => ParseOutcome.ok Command.Exit) := by
  simp only [Command.from_str, hs, hlow]
  rw [if_neg (by decide), if_neg (by decide), if_neg (by decide),
    if_neg (by decide), if_neg (by decide), if_true]

lemma nat_to_digit_chars_no_ws (m : Nat) :
    ∀ c ∈ nat_to_digit_chars m, rust_char_is_whitespace c = false :=
  fun c hc => ws_false_of_digit c (nat_to_digit_chars_all_digits m c hc)

lemma int_to_chars_ne_nil (n : Int) : int_to_chars n ≠ [] := by
  rw [int_to_chars]
  split
  · simp
  · exact nat_to_digit_chars_ne_nil _

lemma int_to_chars_no_ws (n : Int) :
    ∀ c ∈ int_to_chars n, rust_char_is_whitespace c = false := by
  rw [int_to_chars]
  split
  · intro c hc
    rcases List.mem_cons.1 hc with rfl | hc
    · decide
    · exact nat_to_digit_chars_no_ws _ c hc
  · exact nat_to_digit_chars_no_ws _

/-- C1: the claim says `Command::from_str` returns `Ok` or `Err` and never
panics, in particular for inputs whose first token is `help` or `config`.
The code violates this: `Help::from_str` is `todo!()`, so any input whose
first token is `help` panics the process.  (`config` inputs do return an
`Err`, as the claim expects.) -/
theorem help_input_panics :
    Command.from_str (chars "help") = ParseOutcome.panicked ∧
    Command.from_str (chars "help me") = ParseOutcome.panicked ∧
    Command.from_str (chars "config x") =
      ParseOutcome.err CmdError.configNoOptions := by
  exact ⟨by decide, by decide, by decide⟩

/-- C8: every input consisting only of whitespace (including the empty
string) parses to `Ok(Command::None)`, never an error. -/
theorem whitespace_input_yields_none (s : List Char)
    (h : ∀ c ∈ s, rust_char_is_whitespace c = true) :
    Command.from_str s = ParseOutcome.ok Command.None :=
  command_from_str_whitespace s (split_at_first_token_none s h)

/-- Witness for C8 at the concrete whitespace-only inputs `"  "` and `""`. -/
theorem whitespace_input_yields_none_witness :
    Command.from_str (chars "  ") = ParseOutcome.ok Command.None ∧
    Command.from_str (chars "") = ParseOutcome.ok Command.None :=
  ⟨whitespace_input_yields_none (chars "  ") (by decide),
   whitespace_input_yields_none (chars "") (by decide)⟩

/-- C6: for every input whose first token lowercases to `exit`: with nothing
but whitespace after it the result is `Ok(Command::Exit)`; with any extra
text the result is the `Unexpected extra parameter` error, whose rendered
string names the (trimmed) extra text and suggests entering `help`. -/
theorem command_exit_spec (s tok rem : List Char)
    (hs : split_at_first_token s = some (tok, rem))
    (hlow : rust_to_lowercase tok = chars "exit") :
    (rust_trim rem = [] → Command.from_str s = ParseOutcome.ok Command.Exit) ∧
    (rust_trim rem ≠ [] →
      Command.from_str s =
        ParseOutcome.err (CmdError.unexpectedExtraParameter (rust_trim rem)
          (chars "help")) ∧
      (CmdError.unexpectedExtraParameter (rust_trim rem) (chars "help")).render =
        "Unexpected extra parameter: '" ++ String.mk (rust_trim rem) ++
        "'. Enter '" ++ "help" ++ "' for an explanation.") := by
  have hdisp := command_from_str_dispatch_exit s tok rem hs hlow
  constructor
  · intro htrim
    rw [hdisp, reject_additional_tokens_of_trim_nil rem (chars "help") htrim]
  · intro htrim
    refine ⟨?_, rfl⟩
    rw [hdisp, reject_additional_tokens_of_trim_ne_nil rem (chars "help") htrim]

/-- Witness for C6: `exit now` is rejected naming `now`; `EXIT` succeeds. -/
theorem command_exit_spec_witness :
    Command.from_str (chars "exit now") =
      ParseOutcome.err (CmdError.unexpectedExtraParameter
        (rust_trim (chars "now")) (chars "help")) ∧
    Command.from_str (chars "EXIT") = ParseOutcome.ok Command.Exit :=
  ⟨((command_exit_spec (chars "exit now") (chars "exit") (chars "now")
      (by decide) (by decide)).2 (by decide)).1,
   (command_exit_spec (chars "EXIT") (chars "EXIT") (chars "")
      (by decide) (by decide)).1 (by decide)⟩

/-- C5: `find nonzero` (mode matched case-insensitively, nothing after the
mode) parses to `Find::NonZero`, and bare `find` yields the error whose
rendered string names the three valid find modes `nonzero`, `bytes`, and
`string`. -/
theorem command_find_nonzero_spec :
    (∀ t : List Char, t ≠ [] →
      (∀ c ∈ t, rust_char_is_whitespace c = false) →
      rust_to_lowercase t = chars "nonzero" →
      Command.from_str (chars "find " ++ t) =
        ParseOutcome.ok (Command.Find Find.NonZero)) ∧
    Command.from_str (chars "find") = ParseOutcome.err CmdError.missingFindMode ∧
    CmdError.missingFindMode.render =
      "Missing find mode: 'nonzero', 'bytes', or 'string'. Enter 'help find' for an example." := by
  refine ⟨?_, by decide, rfl⟩
  intro t h1 h2 hlow
  have hkey : chars "find " ++ t = chars "find" ++ ' ' :: t := rfl
  have hsplit : split_at_first_token (chars "find " ++ t) =
      some (chars "find", t) := by
    rw [hkey]
    exact split_at_first_token_space ' ' (chars "find") t (by decide)
      (by decide) (by decide)
  rw [command_from_str_dispatch_find _ _ _ hsplit (by decide),
    find_from_str_nonzero t h1 h2 hlow]
  rfl

/-- Witness for C5 at the concrete input `find NonZero`. -/
theorem command_find_nonzero_spec_witness :
    Command.from_str (chars "find " ++ chars "NonZero") =
      ParseOutcome.ok (Command.Find Find.NonZero) :=
  command_find_nonzero_spec.1 (chars "NonZero") (by decide) (by decide)
    (by decide)

/-- C3: `seek absolute n` / `seek relative n` (mode matched
case-insensitively) parse to `Seek::Absolute(n)` / `Seek::Relative(n)` for
every `n` in the `i64` range; a missing mode, a missing offset, an invalid
offset token, trailing extra tokens, or a mode other than
`absolute`/`relative` each produce a descriptive error. -/
theorem command_seek_parse_spec :
    (∀ (n : Int) (mode : List Char), i64_MIN ≤ n → n ≤ i64_MAX →
      mode ≠ [] → (∀ c ∈ mode, rust_char_is_whitespace c = false) →
      (rust_to_lowercase mode = chars "absolute" →
        Command.from_str (chars "seek " ++ (mode ++ ' ' :: int_to_chars n)) =
          ParseOutcome.ok (Command.Seek (Seek.Absolute n))) ∧
      (rust_to_lowercase mode = chars "relative" →
        Command.from_str (chars "seek " ++ (mode ++ ' ' :: int_to_chars n)) =
          ParseOutcome.ok (Command.Seek (Seek.Relative n)))) ∧
    (∀ tail : List Char, (∀ c ∈ tail, rust_char_is_whitespace c = true) →
      Command.from_str (chars "seek" ++ tail) =
        ParseOutcome.err CmdError.missingSeekMode) ∧
    (∀ mode : List Char, mode ≠ [] →
      (∀ c ∈ mode, rust_char_is_whitespace c = false) →
      Command.from_str (chars "seek " ++ mode) =
        ParseOutcome.err CmdError.missingSeekOffset) ∧
    (∀ (mode tok : List Char) (k : IntErrorKind), mode ≠ [] →
      (∀ c ∈ mode, rust_char_is_whitespace c = false) → tok ≠ [] →
      (∀ c ∈ tok, rust_char_is_whitespace c = false) →
      rust_parse_i64 tok = .error k →
      Command.from_str (chars "seek " ++ (mode ++ ' ' :: tok)) =
        ParseOutcome.err (CmdError.invalidSeekOffset tok k)) ∧
    (∀ (mode tok rest : List Char) (n : Int), mode ≠ [] →
      (∀ c ∈ mode, rust_char_is_whitespace c = false) → tok ≠ [] →
      (∀ c ∈ tok, rust_char_is_whitespace c = false) →
      rust_parse_i64 tok = .ok n → rust_trim rest ≠ [] →
      Command.from_str (chars "seek " ++ (mode ++ ' ' :: (tok ++ ' ' :: rest))) =
        ParseOutcome.err (CmdError.unexpectedExtraParameter (rust_trim rest)
          (chars "help seek"))) ∧
    (∀ (rem mode args : List Char),
      split_at_first_token rem = some (mode, args) →
      rust_to_lowercase mode ≠ chars "absolute" →
      rust_to_lowercase mode ≠ chars "relative" →
      ∃ e, Command.from_str (chars "seek " ++ rem) = ParseOutcome.err e) := by
  have hseekkey : ∀ rem : List Char, split_at_first_token (chars "seek " ++ rem) =
      some (chars "seek", rem) := by
    intro rem
    have : chars "seek " ++ rem = chars "seek" ++ ' ' :: rem := rfl
    rw [this]
    exact split_at_first_token_space ' ' (chars "seek") rem (by decide)
      (by decide) (by decide)
  refine ⟨?_, ?_, ?_, ?_, ?_, ?_⟩
  · intro n mode h1 h2 hm1 hm2
    have hparse := rust_parse_i64_int n h1 h2
    have hdisp := command_from_str_dispatch_seek _ _ _
      (hseekkey (mode ++ ' ' :: int_to_chars n)) (by decide)
    have hseek := seek_from_str_mode_offset mode (int_to_chars n) hm1 hm2
      (int_to_chars_ne_nil n) (int_to_chars_no_ws n) n hparse
    constructor
    · intro habs
      rw [hdisp, hseek, if_pos habs]
      rfl
    · intro hrel
      rw [hdisp, hseek, if_neg (by rw [hrel]; decide), if_pos hrel]
      rfl
  · intro tail htail
    rcases tail with _ | ⟨w, rest⟩
    · rw [List.append_nil]
      rw [command_from_str_dispatch_seek _ _ _
        (split_at_first_token_single (chars "seek") (by decide) (by decide))
        (by decide)]
      rw [seek_from_str_missing_mode [] (by simp)]
      rfl
    · have hw : rust_char_is_whitespace w = true := htail w (by simp)
      have hrest : ∀ c ∈ rest, rust_char_is_whitespace c = true :=
        fun c hc => htail c (by simp [hc])
      rw [command_from_str_dispatch_seek _ _ _
        (split_at_first_token_space w (chars "seek") rest hw (by decide)
          (by decide)) (by decide)]
      rw [seek_from_str_missing_mode rest hrest]
      rfl
  · intro mode hm1 hm2
    rw [command_from_str_dispatch_seek _ _ _ (hseekkey mode) (by decide)]
    rw [seek_from_str_missing_offset mode hm1 hm2]
    rfl
  · intro mode tok k hm1 hm2 ht1 ht2 hp
    rw [command_from_str_dispatch_seek _ _ _
      (hseekkey (mode ++ ' ' :: tok)) (by decide)]
    rw [seek_from_str_invalid_offset mode tok hm1 hm2 ht1 ht2 k hp]
    rfl
  · intro mode tok rest n hm1 hm2 ht1 ht2 hp hrest
    rw [command_from_str_dispatch_seek _ _ _
      (hseekkey (mode ++ ' ' :: (tok ++ ' ' :: rest))) (by decide)]
    rw [seek_from_str_extra_tokens mode tok rest hm1 hm2 ht1 ht2 n hp hrest]
    rfl
  · intro rem mode args hsp habs hrel
    have hdisp := command_from_str_dispatch_seek _ _ _ (hseekkey rem)
      (by decide)
    rcases hres : Seek.from_str rem with e | x
    · exact ⟨e, by rw [hdisp, hres]; rfl⟩
    · exfalso
      obtain ⟨mode2, args2, hsp2, hor⟩ := seek_from_str_ok_inv rem x hres
      rw [hsp] at hsp2
      have hpair := Option.some.inj hsp2
      have hmode : mode = mode2 := congrArg Prod.fst hpair
      rcases hor with h | h
      · rw [← hmode] at h
        exact habs h
      · rw [← hmode] at h
        exact hrel h

/-- Witness for C3: `seek Absolute 42` parses, and bare `seek` reports the
missing mode. -/
theorem command_seek_parse_spec_witness :
    Command.from_str (chars "seek " ++ (chars "Absolute" ++ ' ' ::
      int_to_chars 42)) = ParseOutcome.ok (Command.Seek (Seek.Absolute 42)) ∧
    Command.from_str (chars "seek" ++ chars "") =
      ParseOutcome.err CmdError.missingSeekMode :=
  ⟨(command_seek_parse_spec.1 42 (chars "Absolute") (by decide) (by decide)
      (by decide) (by decide)).1 (by decide),
   command_seek_parse_spec.2.1 (chars "") (by decide)⟩

/-- C4 counterexample: the claim says `print n` yields `Print(n)` for every
`n` representable as `u64`, but for `n = 2^63` (which is a valid `u64`) the
source parses the token as `i64` first, so it reports a positive-overflow
error instead. -/
theorem print_u64_claim_counterexample :
    Command.from_str (chars "print 9223372036854775808") =
      ParseOutcome.err (CmdError.invalidPrintCount
        (chars "9223372036854775808") IntErrorKind.PosOverflow) ∧
    Command.from_str (chars "print 9223372036854775808") ≠
      ParseOutcome.ok (Command.Print (Print.mk 9223372036854775808)) := by
  exact ⟨by decide, by decide⟩

/-- C4 (amended): `print n` yields `Print(n)` exactly for `0 ≤ n ≤ i64::MAX`;
for `n > i64::MAX` (in particular `u64` values from `2^63` up) it reports a
positive-overflow error; for `i64::MIN ≤ n < 0` it reports that the number
of bytes to print must be non-negative. -/
theorem command_print_parse_amended :
    (∀ n : Int, 0 ≤ n → n ≤ i64_MAX →
      Command.from_str (chars "print " ++ int_to_chars n) =
        ParseOutcome.ok (Command.Print (Print.mk n.toNat))) ∧
    (∀ m : Nat, i64_MAX < (m : Int) →
      Command.from_str (chars "print " ++ nat_to_digit_chars m) =
        ParseOutcome.err (CmdError.invalidPrintCount (nat_to_digit_chars m)
          IntErrorKind.PosOverflow)) ∧
    (∀ n : Int, i64_MIN ≤ n → n < 0 →
      Command.from_str (chars "print " ++ int_to_chars n) =
        ParseOutcome.err CmdError.negativePrintCount ∧
      CmdError.negativePrintCount.render =
        "The number of bytes to print must be non-negative.") := by
  have hprintkey : ∀ rem : List Char,
      split_at_first_token (chars "print " ++ rem) =
        some (chars "print", rem) := by
    intro rem
    have : chars "print " ++ rem = chars "print" ++ ' ' :: rem := rfl
    rw [this]
    exact split_at_first_token_space ' ' (chars "print") rem (by decide)
      (by decide) (by decide)
  refine ⟨?_, ?_, ?_⟩
  · intro n h0 hmax
    have hparse := rust_parse_i64_int n (le_trans (by decide) h0) hmax
    rw [command_from_str_dispatch_print _ _ _ (hprintkey (int_to_chars n))
      (by decide)]
    rw [print_from_str_ok (int_to_chars n) (int_to_chars_ne_nil n)
      (int_to_chars_no_ws n) n hparse (by omega)]
    rfl
  · intro m hm
    have hparse := rust_parse_i64_nat_overflow m hm
    rw [command_from_str_dispatch_print _ _ _
      (hprintkey (nat_to_digit_chars m)) (by decide)]
    rw [print_from_str_invalid (nat_to_digit_chars m)
      (nat_to_digit_chars_ne_nil m) (nat_to_digit_chars_no_ws m)
      IntErrorKind.PosOverflow hparse]
    rfl
  · intro n hmin hneg
    have hparse := rust_parse_i64_int n hmin (le_trans hneg.le (by decide))
    refine ⟨?_, rfl⟩
    rw [command_from_str_dispatch_print _ _ _ (hprintkey (int_to_chars n))
      (by decide)]
    rw [print_from_str_negative (int_to_chars n) (int_to_chars_ne_nil n)
      (int_to_chars_no_ws n) n hparse hneg]
    rfl

/-- Witness for C4 (amended): `print 16` succeeds and `print -1` reports the
non-negative requirement. -/
theorem command_print_parse_amended_witness :
    Command.from_str (chars "print " ++ int_to_chars 16) =
      ParseOutcome.ok (Command.Print (Print.mk (Int.toNat 16))) ∧
    Command.from_str (chars "print " ++ int_to_chars (-1)) =
      ParseOutcome.err CmdError.negativePrintCount :=
  ⟨command_print_parse_amended.1 16 (by decide) (by decide),
   (command_print_parse_amended.2.2 (-1) (by decide) (by decide)).1⟩

/-- Embedding of the `ceil_divide!` macro (src/math_util.rs lines 4-8),
instantiated at an unsigned integer type of bit width `w`: the source
expression `(dividend + divisor - 1) / divisor`, computed in that type
(wrap-around modulo `2^w` on the intermediate sum). -/
def ceil_divide (w dividend divisor : Nat) : Nat :=
  ((dividend + divisor - 1) % 2 ^ w) / divisor

/-- C10: for `a ≥ 0`, `b ≥ 1`, and `a + b - 1` not overflowing the operand
type, `ceil_divide!` returns exactly the ceiling of `a / b`: it equals
`a / b` when `b` divides `a` and `a / b + 1` otherwise. -/
theorem ceil_divide_exact (w a b : Nat) (hb : 1 ≤ b)
    (hof : a + b - 1 < 2 ^ w) :
    (b ∣ a → ceil_divide w a b = a / b) ∧
    (¬ b ∣ a → ceil_divide w a b = a / b + 1) := by
  have hmod : (a + b - 1) % 2 ^ w = a + b - 1 := Nat.mod_eq_of_lt hof
  rw [ceil_divide, hmod]
  constructor
  · rintro ⟨q, rfl⟩
    have e1 : b * q + b - 1 = (b - 1) + b * q := by omega
    rw [e1, Nat.add_mul_div_left _ _ (show 0 < b by omega),
      Nat.div_eq_of_lt (by omega), Nat.mul_div_cancel_left q
        (show 0 < b by omega)]
    omega
  · intro hnd
    have hr1 : 1 ≤ a % b := by
      rcases Nat.eq_zero_or_pos (a % b) with h | h
      · exact absurd (Nat.dvd_of_mod_eq_zero h) hnd
      · exact h
    have hrb : a % b < b := Nat.mod_lt _ (by omega)
    have hdm : b * (a / b) + a % b = a := Nat.div_add_mod a b
    have e1 : a + b - 1 = (b - 1 + a % b) + b * (a / b) := by omega
    rw [e1, Nat.add_mul_div_left _ _ (show 0 < b by omega)]
    have e2 : (b - 1 + a % b) / b = 1 := by
      apply Nat.div_eq_of_lt_le <;> omega
    rw [e2]
    omega

/-- Witness for C10: `ceil_divide! (7, 3)` in a 64-bit type is `3 = 7/3 + 1`. -/
theorem ceil_divide_exact_witness :
    ceil_divide 64 7 3 = 7 / 3 + 1 :=
  (ceil_divide_exact 64 7 3 (by decide) (by norm_num)).2 (by decide)

/-- The `UNIT_SUFFIXES` constant (src/disk_info.rs lines 7-8). -/
def UNIT_SUFFIXES : List String := ["B", "KB", "MB", "GB", "TB", "PB"]

/-- Model of Rust `u64::checked_ilog(base)`: `none` when `self` is zero or
the base is below 2, otherwise the floor logarithm. -/
def checked_ilog (base n : Nat) : Option Nat :=
  if n = 0 ∨ base < 2 then none else some (Nat.log base n)

/-- The unit-order computation of `get_disk_info` (src/disk_info.rs lines
38-41): `min(UNIT_SUFFIXES.len(), total_space.checked_ilog(1024).unwrap_or(0))`,
used to index `UNIT_SUFFIXES`. -/
def unit_order (total_space : Nat) : Nat :=
  min UNIT_SUFFIXES.length ((checked_ilog 1024 total_space).getD 0)

/-- C9: the claim says the computed index is strictly below
`UNIT_SUFFIXES.len() = 6` for every `u64` total space, so indexing is in
bounds.  The code violates this: for `total_space = 2^60 = 1024^6` (a valid
`u64`) the index is `min(6, 6) = 6`, and `UNIT_SUFFIXES[6]` is out of
bounds (the clamp uses `len()` where only `len() - 1` is a valid index). -/
theorem unit_order_out_of_bounds :
    unit_order (2 ^ 60) = 6 ∧
    ¬ (unit_order (2 ^ 60) < UNIT_SUFFIXES.length) ∧
    (2 : Nat) ^ 60 < 2 ^ 64 := by
  have hlog : Nat.log 1024 (2 ^ 60) = 6 := by
    apply Nat.log_eq_of_pow_le_of_lt_pow <;> norm_num
  have horder : unit_order (2 ^ 60) = 6 := by
    rw [unit_order, checked_ilog, if_neg (by norm_num), Option.getD_some, hlog]
    decide
  exact ⟨horder, by rw [horder]; decide, by norm_num⟩

/-- Embedding of `AlignedBuffer::<SIZE>::new` (src/data/aligned_buffer.rs
lines 43-46): `[0; SIZE]`, a buffer of `SIZE` zero bytes.  The 16-byte
alignment attribute is a memory-layout property with no value-level
content; the `debug_assert!(SIZE % 16 == 0)` matches the claim's
hypothesis. -/
def AlignedBuffer.new (SIZE : Nat) : List Nat := List.replicate SIZE 0

/-- The value of one little-endian word assembled from its bytes (the byte
ordering `view_as` documents for the reinterpreted buffer). -/
def le_word (bs : List Nat) : Nat := bs.foldr (fun b acc => b + 256 * acc) 0

/-- Embedding of `AlignedBuffer::view_as::<T>` (src/data/aligned_buffer.rs
lines 76-87) for an integer type `T` of `width` bytes: reinterpret the
buffer as consecutive `width`-byte little-endian words; the slice has
`buffer.len() / size_of::<T>()` elements. -/
def view_as (width : Nat) (buf : List Nat) : List Nat :=
  if hnz : width = 0 ∨ buf = [] then []
  else le_word (buf.take width) :: view_as width (buf.drop width)
termination_by buf.length
decreasing_by
  push_neg at hnz
  rw [List.length_drop]
  have h1 : buf.length ≠ 0 := fun hc => hnz.2 (List.eq_nil_of_length_eq_zero hc)
  omega

lemma le_word_replicate_zero (w : Nat) :
    le_word (List.replicate w 0) = 0 := by
  induction w with
  | zero => rfl
  | succ w ih => simp [le_word, List.replicate_succ, List.foldr_cons]
                 simpa [le_word] using ih

lemma view_as_replicate_zero (width : Nat) (hw : width ≠ 0) (k : Nat) :
    view_as width (List.replicate (width * k) 0) = List.replicate k 0 := by
  induction k with
  | zero =>
    rw [Nat.mul_zero, List.replicate_zero, view_as]
    exact dif_pos (Or.inr rfl)
  | succ k ih =>
    have hlen : width * (k + 1) = width + width * k := by ring
    rw [view_as]
    have hne : List.replicate (width * (k + 1)) (0 : Nat) ≠ [] := by
      simp only [ne_eq, List.replicate_eq_nil_iff]
      intro hc
      omega
    rw [dif_neg (by push_neg; exact ⟨hw, hne⟩)]
    rw [hlen, List.take_replicate, List.drop_replicate]
    have hmin : min width (width + width * k) = width := by omega
    have hsub : width + width * k - width = width * k := by omega
    rw [hmin, hsub, le_word_replicate_zero, ih]
    rfl

/-- C7: for every `SIZE` that is a multiple of 16 and every integer type
whose byte width divides 16, a fresh `AlignedBuffer` consists of `SIZE`
zero bytes, and `view_as` over it has exactly `SIZE / width` elements,
spans the whole buffer (`length × width = SIZE`), and every element of the
fresh buffer's view is `0`. -/
theorem aligned_buffer_new_view_spec (SIZE width : Nat)
    (hs : SIZE % 16 = 0) (hw : width ∣ 16) :
    (AlignedBuffer.new SIZE).length = SIZE ∧
    (∀ b ∈ AlignedBuffer.new SIZE, b = 0) ∧
    (view_as width (AlignedBuffer.new SIZE)).length = SIZE / width ∧
    (view_as width (AlignedBuffer.new SIZE)).length * width = SIZE ∧
    (∀ x ∈ view_as width (AlignedBuffer.new SIZE), x = 0) := by
  have hw0 : width ≠ 0 := by
    rintro rfl
    simp at hw
  have hdvd : width ∣ SIZE := hw.trans (Nat.dvd_of_mod_eq_zero hs)
  obtain ⟨k, hk⟩ := hdvd
  have hview : view_as width (AlignedBuffer.new SIZE) = List.replicate k 0 := by
    rw [AlignedBuffer.new, hk]
    exact view_as_replicate_zero width hw0 k
  have hdiv : SIZE / width = k := by
    rw [hk, Nat.mul_div_cancel_left k (by omega)]
  refine ⟨by simp [AlignedBuffer.new], ?_, ?_, ?_, ?_⟩
  · intro b hb
    exact List.eq_of_mem_replicate hb
  · rw [hview, List.length_replicate, hdiv]
  · rw [hview, List.length_replicate, hk, Nat.mul_comm]
  · intro x hx
    rw [hview] at hx
    exact List.eq_of_mem_replicate hx

/-- Witness for C7 at `SIZE = 32`, `width = 8` (the `u64` view of the
doc-example buffer). -/
theorem aligned_buffer_new_view_spec_witness :
    (view_as 8 (AlignedBuffer.new 32)).length = 32 / 8 ∧
    (∀ x ∈ view_as 8 (AlignedBuffer.new 32), x = 0) :=
  ⟨(aligned_buffer_new_view_spec 32 8 (by decide) (by decide)).2.2.1,
   (aligned_buffer_new_view_spec 32 8 (by decide) (by decide)).2.2.2.2⟩

/-- Modelled from the spec: the Compressed Address Codec (§4.1) is part of
the core design but its implementation is absent from the sources; it is
modelled from the spec's words.  Total byte count of each 2-bit length
class: class 0 → 4 bytes, 1 → 5, 2 → 6, 3 → 8. -/
def class_total_bytes : Nat → Nat
  | 0 => 4
  | 1 => 5
  | 2 => 6
  | _ => 8

/-- Modelled from the spec: payload bit width of each class (30, 38, 46,
62), i.e. 8 × total bytes − 2 header bits. -/
def class_payload_bits (c : Nat) : Nat := 8 * class_total_bytes c - 2

/-- Big-endian byte string of `n` in exactly `w` bytes. -/
def nat_to_bytes_be : Nat → Nat → List Nat
  | 0, _ => []
  | w + 1, n => (n / 2 ^ (8 * w)) % 256 :: nat_to_bytes_be w (n % 2 ^ (8 * w))

/-- Value of a big-endian byte string. -/
def bytes_to_nat_be (bs : List Nat) : Nat :=
  bs.foldl (fun acc b => acc * 256 + b) 0

/-- The codec's failure kinds named by the spec (§4.1, §7). -/
inductive CodecError where
  | AddressTooLarge
  | TruncatedInput
deriving DecidableEq

/-- Modelled from the spec: `encode` selects the smallest class whose
payload bit width can represent `addr`, prepends the 2-bit class header to
the payload, and emits the class's total bytes big-endian; it fails with
`AddressTooLarge` when `addr` exceeds `2^62 − 1`. -/
def encode (addr : Nat) : Except CodecError (List Nat) :=
  if addr < 2 ^ 30 then .ok (nat_to_bytes_be 4 (0 * 2 ^ 30 + addr))
  else if addr < 2 ^ 38 then .ok (nat_to_bytes_be 5 (1 * 2 ^ 38 + addr))
  else if addr < 2 ^ 46 then .ok (nat_to_bytes_be 6 (2 * 2 ^ 46 + addr))
  else if addr < 2 ^ 62 then .ok (nat_to_bytes_be 8 (3 * 2 ^ 62 + addr))
  else .error .AddressTooLarge

/-- Modelled from the spec: `decode` reads the first byte's top two bits to
learn the total length, demands that many bytes (`TruncatedInput`
otherwise), and reconstructs the address from the low `8·len − 2` bits,
returning the value and the bytes consumed. -/
def decode (bs : List Nat) : Except CodecError (Nat × Nat) :=
  match bs with
  | [] => .error .TruncatedInput
  | b0 :: _ =>
    let cls := b0 / 64
    let len := class_total_bytes cls
    if bs.length < len then .error .TruncatedInput
    else .ok (bytes_to_nat_be (bs.take len) % 2 ^ (8 * len - 2), len)

lemma length_nat_to_bytes_be (w : Nat) : ∀ n, (nat_to_bytes_be w n).length = w := by
  induction w with
  | zero => intro n; rfl
  | succ w ih => intro n; simp [nat_to_bytes_be, ih]

lemma foldl_nat_to_bytes_be (w : Nat) : ∀ n acc, n < 2 ^ (8 * w) →
    List.foldl (fun acc b => acc * 256 + b) acc (nat_to_bytes_be w n) =
      acc * 2 ^ (8 * w) + n := by
  induction w with
  | zero =>
    intro n acc hn
    interval_cases n
    simp [nat_to_bytes_be]
  | succ w ih =>
    intro n acc hn
    have hpow : (2 : Nat) ^ (8 * (w + 1)) = 2 ^ (8 * w) * 256 := by
      rw [show 8 * (w + 1) = 8 * w + 8 by ring, pow_add]
      norm_num
    have hdivlt : n / 2 ^ (8 * w) < 256 := by
      apply Nat.div_lt_of_lt_mul
      rw [← hpow]
      exact hn
    have hmodid : n / 2 ^ (8 * w) % 256 = n / 2 ^ (8 * w) :=
      Nat.mod_eq_of_lt hdivlt
    rw [nat_to_bytes_be, List.foldl_cons, hmodid,
      ih (n % 2 ^ (8 * w)) _ (Nat.mod_lt _ (by positivity))]
    have hdm : 2 ^ (8 * w) * (n / 2 ^ (8 * w)) + n % 2 ^ (8 * w) = n :=
      Nat.div_add_mod n _
    calc (acc * 256 + n / 2 ^ (8 * w)) * 2 ^ (8 * w) + n % 2 ^ (8 * w)
        = acc * (2 ^ (8 * w) * 256) +
            (2 ^ (8 * w) * (n / 2 ^ (8 * w)) + n % 2 ^ (8 * w)) := by ring
      _ = acc * 2 ^ (8 * (w + 1)) + n := by rw [hdm, ← hpow]

lemma bytes_to_nat_be_roundtrip (w n : Nat) (hn : n < 2 ^ (8 * w)) :
    bytes_to_nat_be (nat_to_bytes_be w n) = n := by
  rw [bytes_to_nat_be, foldl_nat_to_bytes_be w n 0 hn]
  ring

lemma header_extract (c a L : Nat) (hc : c < 4) (hL : 1 ≤ L)
    (ha : a < 2 ^ (8 * L - 2)) :
    (c * 2 ^ (8 * L - 2) + a) / 2 ^ (8 * (L - 1)) % 256 / 64 = c := by
  have hpow : (2 : Nat) ^ (8 * L - 2) = 64 * 2 ^ (8 * (L - 1)) := by
    rw [show 8 * L - 2 = 6 + 8 * (L - 1) by omega, pow_add]
    norm_num
  have hdpos : 0 < (2 : Nat) ^ (8 * (L - 1)) := by positivity
  have hq : (c * 2 ^ (8 * L - 2) + a) / 2 ^ (8 * (L - 1)) =
      64 * c + a / 2 ^ (8 * (L - 1)) := by
    rw [hpow, show c * (64 * 2 ^ (8 * (L - 1)) ) =
      2 ^ (8 * (L - 1)) * (64 * c) by ring, Nat.mul_add_div hdpos]
  have hrlt : a / 2 ^ (8 * (L - 1)) < 64 := by
    apply Nat.div_lt_of_lt_mul
    rw [show 2 ^ (8 * (L - 1)) * 64 = 64 * 2 ^ (8 * (L - 1)) by ring, ← hpow]
    exact ha
  rw [hq, Nat.mod_eq_of_lt (by omega)]
  rw [Nat.mul_add_div (by norm_num), Nat.div_eq_of_lt hrlt]
  omega


lemma decode_encode_class (c a v : Nat) (hc : c < 4)
    (hLc : class_total_bytes c = v + 1)
    (ha : a < 2 ^ (8 * (v + 1) - 2)) :
    decode (nat_to_bytes_be (v + 1) (c * 2 ^ (8 * (v + 1) - 2) + a)) =
      Except.ok (a, v + 1) := by
  have hfull : c * 2 ^ (8 * (v + 1) - 2) + a < 2 ^ (8 * (v + 1)) := by
    have h4 : (2 : Nat) ^ (8 * (v + 1)) = 4 * 2 ^ (8 * (v + 1) - 2) := by
      rw [show 8 * (v + 1) = 2 + (8 * (v + 1) - 2) by omega, pow_add]
      norm_num
    rw [h4]
    nlinarith
  have hhead : (c * 2 ^ (8 * (v + 1) - 2) + a) / 2 ^ (8 * v) % 256 / 64 = c := by
    have h := header_extract c a (v + 1) hc (by omega) ha
    rw [show 8 * ((v + 1) - 1) = 8 * v by omega] at h
    exact h
  have hrest := length_nat_to_bytes_be v
    ((c * 2 ^ (8 * (v + 1) - 2) + a) % 2 ^ (8 * v))
  rw [nat_to_bytes_be]
  simp only [decode, hhead, hLc]
  rw [List.length_cons, hrest, if_neg (lt_irrefl (v + 1))]
  have hlc : ((c * 2 ^ (8 * (v + 1) - 2) + a) / 2 ^ (8 * v) % 256 ::
      nat_to_bytes_be v ((c * 2 ^ (8 * (v + 1) - 2) + a) % 2 ^ (8 * v))).length =
      v + 1 := by
    rw [List.length_cons, hrest]
  rw [List.take_of_length_le (le_of_eq hlc), ← nat_to_bytes_be,
    bytes_to_nat_be_roundtrip (v + 1) _ hfull]
  have hmod : (c * 2 ^ (8 * (v + 1) - 2) + a) % 2 ^ (8 * (v + 1) - 2) = a := by
    rw [add_comm, Nat.add_mul_mod_self_right, Nat.mod_eq_of_lt ha]
  rw [hmod]

/-- C2: for every address up to `2^62 − 1`, `decode (encode a)` recovers
`a` (consuming exactly the encoded bytes), `encode` picks the smallest
class that can represent `a` (4, 5, 6, or 8 total bytes as `a` crosses
`2^30`, `2^38`, `2^46`), and addresses of `2^62` and above fail with
`AddressTooLarge`. -/
theorem compressed_address_codec_roundtrip (a : Nat) :
    (a < 2 ^ 62 →
      ∃ bs, encode a = .ok bs ∧
        bs.length = (if a < 2 ^ 30 then 4 else if a < 2 ^ 38 then 5
          else if a < 2 ^ 46 then 6 else 8) ∧
        decode bs = .ok (a, bs.length)) ∧
    (2 ^ 62 ≤ a → encode a = .error CodecError.AddressTooLarge) := by
  constructor
  · intro h62
    by_cases h30 : a < 2 ^ 30
    · refine ⟨_, by rw [encode, if_pos h30], ?_, ?_⟩
      · rw [length_nat_to_bytes_be, if_pos h30]
      · rw [length_nat_to_bytes_be]
        have hdec := decode_encode_class 0 a 3 (by norm_num) rfl
          (by norm_num; omega)
        norm_num at hdec ⊢
        exact hdec
    · by_cases h38 : a < 2 ^ 38
      · refine ⟨_, by rw [encode, if_neg h30, if_pos h38], ?_, ?_⟩
        · rw [length_nat_to_bytes_be, if_neg h30, if_pos h38]
        · rw [length_nat_to_bytes_be]
          have hdec := decode_encode_class 1 a 4 (by norm_num) rfl
            (by norm_num; omega)
          norm_num at hdec ⊢
          exact hdec
      · by_cases h46 : a < 2 ^ 46
        · refine ⟨_, by rw [encode, if_neg h30, if_neg h38, if_pos h46],
            ?_, ?_⟩
          · rw [length_nat_to_bytes_be, if_neg h30, if_neg h38, if_pos h46]
          · rw [length_nat_to_bytes_be]
            have hdec := decode_encode_class 2 a 5 (by norm_num) rfl
              (by norm_num; omega)
            norm_num at hdec ⊢
            exact hdec
        · refine ⟨_, by rw [encode, if_neg h30, if_neg h38, if_neg h46,
            if_pos h62], ?_, ?_⟩
          · rw [length_nat_to_bytes_be, if_neg h30, if_neg h38, if_neg h46]
          · rw [length_nat_to_bytes_be]
            have hdec := decode_encode_class 3 a 7 (by norm_num) rfl
              (by norm_num; omega)
            norm_num at hdec ⊢
            exact hdec
  · intro h
    rw [encode, if_neg (by omega), if_neg (by omega), if_neg (by omega),
      if_neg (by omega)]

/-- Witness for C2: the address `2^40` (class 2, six bytes) round-trips, and
`2^65` is rejected as too large. -/
theorem compressed_address_codec_roundtrip_witness :
    (∃ bs, encode (2 ^ 40) = .ok bs ∧
      bs.length = (if (2 : Nat) ^ 40 < 2 ^ 30 then 4
        else if (2 : Nat) ^ 40 < 2 ^ 38 then 5
        else if (2 : Nat) ^ 40 < 2 ^ 46 then 6 else 8) ∧
      decode bs = .ok (2 ^ 40, bs.length)) ∧
    encode (2 ^ 65) = .error CodecError.AddressTooLarge :=
  ⟨(compressed_address_codec_roundtrip (2 ^ 40)).1 (by norm_num),
   (compressed_address_codec_roundtrip (2 ^ 65)).2 (by norm_num)⟩

end RawReader
